import Mathlib

/-!
# Point-light cubemap shadows: the shadow pass and the lighting pass

A shallow embedding of `src/src/main.cpp`: the two fragment shaders
(`depthFS`, `litFS`), the `faceView` lambda, the light animation, the
shadow-pass command loop and the lighting-pass uniform uploads and draws.

Modelling conventions.

* Scalars are the elements of an arbitrary linearly ordered field `K`
  (exact arithmetic); the float literals of the source are read as the
  decimal fractions they spell.  Division is the total division of the
  field (`a / 0 = 0`).
* The scalar library functions the program calls (`sqrt` behind GLSL
  `length` and `normalize`, `std::sin`, `std::cos`) are not code of the
  repository and are passed in as `Builtins K`; the laws of the exact
  functions are collected in `Builtins.Exact`, which the real functions
  satisfy.
* The uniform arrays of `litFS` have 16 slots; reading a slot past the
  capacity has no defined value (`none`).  The sampler is a function from a
  direction and a cube index to a depth.
* Loop counters and layer indices are natural numbers: the program runs the
  loops for `NUM_LIGHTS = 3` lights and 6 faces.
* The GL calls of the shadow pass act on an explicit state; what a depth
  clear and a draw call leave in a layer is a parameter (`Raster`).
-/

set_option linter.unusedSectionVars false

namespace PointlightShadows

/-! ## Vectors -/

/-- A three-component vector (`vec3`, `glm::vec3`). -/
@[ext] structure Vec3 (K : Type) where
  x : K
  y : K
  z : K

/-- A four-component vector (`vec4`). -/
@[ext] structure Vec4 (K : Type) where
  x : K
  y : K
  z : K
  w : K

namespace Vec3

variable {K : Type} [LinearOrderedField K]

instance : Zero (Vec3 K) := ⟨⟨0, 0, 0⟩⟩

instance : Add (Vec3 K) := ⟨fun a b => ⟨a.x + b.x, a.y + b.y, a.z + b.z⟩⟩

instance : Sub (Vec3 K) := ⟨fun a b => ⟨a.x - b.x, a.y - b.y, a.z - b.z⟩⟩

instance : Neg (Vec3 K) := ⟨fun a => ⟨-a.x, -a.y, -a.z⟩⟩

/-- The product `vec3 * float`. -/
def scale (a : Vec3 K) (s : K) : Vec3 K := ⟨a.x * s, a.y * s, a.z * s⟩

/-- The componentwise product `vec3 * vec3`. -/
def mul (a b : Vec3 K) : Vec3 K := ⟨a.x * b.x, a.y * b.y, a.z * b.z⟩

/-- The builtin `dot`. -/
def dot (a b : Vec3 K) : K := a.x * b.x + a.y * b.y + a.z * b.z

/-- The builtin `cross`. -/
def cross (a b : Vec3 K) : Vec3 K :=
  ⟨a.y * b.z - a.z * b.y, a.z * b.x - a.x * b.z, a.x * b.y - a.y * b.x⟩

end Vec3

/-! ## Library functions -/

/-- Scalar library functions called by the program: the square root behind
GLSL `length` and `normalize`, and `std::sin`, `std::cos`. -/
structure Builtins (K : Type) where
  sqrt : K → K
  sin : K → K
  cos : K → K

section Shaders

variable {K : Type} [LinearOrderedField K]

/-- GLSL `length(v) = sqrt(dot(v, v))`. -/
def length (B : Builtins K) (v : Vec3 K) : K := B.sqrt (Vec3.dot v v)

/-- GLSL `normalize(v) = v / length(v)`. -/
def normalize (B : Builtins K) (v : Vec3 K) : Vec3 K :=
  ⟨v.x / length B v, v.y / length B v, v.z / length B v⟩

/-! ## The depth fragment shader -/

/-- The value `depthFS` writes to `gl_FragDepth`. -/
def depthFS (B : Builtins K) (WorldPos uLightPos : Vec3 K) (uFarPlane : K) : K :=
  let dist := length B (WorldPos - uLightPos)
  dist / uFarPlane

/-! ## The lit fragment shader -/

/-- The uniforms of `litFS`.  The three light arrays have capacity 16; the
sampler `uDepthCubeArray` maps a direction and a cube index to the red
channel of the texel it selects. -/
structure LitUniforms (K : Type) where
  uAlbedo : Vec3 K
  uInvertNormals : Int
  uNumLights : Int
  uLightPos : Fin 16 → Vec3 K
  uLightColor : Fin 16 → Vec3 K
  uFarPlane : Fin 16 → K
  uDepthCubeArray : Vec3 K → Nat → K

/-- Indexing a 16-element uniform array; an index past the capacity has no
defined value. -/
def index {α : Type} (a : Fin 16 → α) (i : Nat) : Option α :=
  if h : i < 16 then some (a ⟨i, h⟩) else none

/-- The function `shadowFactor` of `litFS`. -/
def shadowFactor (B : Builtins K) (U : LitUniforms K) (worldPos : Vec3 K) (li : Nat) :
    Option K := do
  let lightPos ← index U.uLightPos li
  let farPlane ← index U.uFarPlane li
  let L := worldPos - lightPos
  let current := length B L / farPlane
  let closest := U.uDepthCubeArray (normalize B L) li
  let bias : K := 0.003
  pure (if current - bias > closest then 0 else 1)

/-- The normal used for shading: `N = normalize(Normal)`, negated when
`uInvertNormals == 1`. -/
def shadingNormal (B : Builtins K) (uInvertNormals : Int) (Normal : Vec3 K) : Vec3 K :=
  let N := normalize B Normal
  if uInvertNormals = 1 then -N else N

/-- The diffuse term `ndotl = max(dot(N, L), 0.0)`. -/
def ndotl (N L : Vec3 K) : K := max (Vec3.dot N L) 0

/-- One iteration of the light loop of `litFS` `main`, for index `i`. -/
def lightStep (B : Builtins K) (U : LitUniforms K) (WorldPos N : Vec3 K)
    (color : Vec3 K) (i : Nat) : Option (Vec3 K) := do
  let lightPos ← index U.uLightPos i
  let L := normalize B (lightPos - WorldPos)
  let d := ndotl N L
  let s ← shadowFactor B U WorldPos i
  let lightColor ← index U.uLightColor i
  pure (color + lightColor.scale (0.06 + d * s))

/-- The light loop `for (int i = 0; i < uNumLights; i++)`, started with
`color = vec3(0.0)`. -/
def lightLoop (B : Builtins K) (U : LitUniforms K) (WorldPos N : Vec3 K) :
    Option (Vec3 K) :=
  (List.range U.uNumLights.toNat).foldlM (lightStep B U WorldPos N) 0

/-- The function `main` of the lit fragment shader `litFS`: the value written
to `FragColor`. -/
def litFS (B : Builtins K) (U : LitUniforms K) (WorldPos Normal : Vec3 K) :
    Option (Vec4 K) := do
  let N := shadingNormal B U.uInvertNormals Normal
  let color ← lightLoop B U WorldPos N
  let c := U.uAlbedo.mul color
  pure ⟨c.x, c.y, c.z, 1⟩

end Shaders

/-! ## Host program: constants, models, views -/

section Host

variable {K : Type} [LinearOrderedField K]

/-- The constant `NUM_LIGHTS`. -/
abbrev NUM_LIGHTS : Nat := 3

/-- The constant `SHADOW_RES`. -/
abbrev SHADOW_RES : Nat := 512

/-- The initial value of the array `lightPos`. -/
def lightPosInit : Fin NUM_LIGHTS → Vec3 K
  | 0 => ⟨0, 2.8, 0⟩
  | 1 => ⟨2, 1, 2⟩
  | 2 => ⟨-2, 1, -2⟩

/-- The array `lightColor`. -/
def lightColor : Fin NUM_LIGHTS → Vec3 K
  | 0 => ⟨0.5, 0.97, 0.5⟩
  | 1 => ⟨0.9, 0.6, 0.6⟩
  | 2 => ⟨0.6, 0.8, 1.0⟩

/-- The array `farPlane`. -/
def farPlane : Fin NUM_LIGHTS → K
  | 0 => 18.0
  | 1 => 18.0
  | 2 => 18.0

/-- The light animation of one frame, at time `t`: every component is
overwritten except the height of light 0, which is never assigned. -/
def animateLights (B : Builtins K) (t : K) (lightPos : Fin NUM_LIGHTS → Vec3 K) :
    Fin NUM_LIGHTS → Vec3 K
  | 0 => ⟨B.sin t * 1.5, (lightPos 0).y, B.cos t * 1.5⟩
  | 1 => ⟨B.cos (t * 0.7) * 2.0, 1.5 + B.sin (t * 1.3) * 0.5, B.sin (t * 0.7) * 2.0⟩
  | 2 => ⟨B.sin (t * 0.5) * 2.5, 1.0 + B.cos (t * 0.9) * 0.5, B.cos (t * 0.5) * 2.5⟩

/-- A model matrix `translate(offset) * scale(factor)` with a uniform scale
factor; every model matrix of the program has this form. -/
structure Model (K : Type) where
  offset : Vec3 K
  factor : K

/-- The world position `(uModel * vec4(aPos, 1.0)).xyz` of a mesh point. -/
def Model.apply (m : Model K) (aPos : Vec3 K) : Vec3 K := m.offset + aPos.scale m.factor

/-- The matrix `modelRoom = scale(10)`. -/
def modelRoom : Model K := ⟨⟨0, 0, 0⟩, 10⟩

/-- The matrix `m1 = translate(-1, 0.5, -1)`. -/
def m1 : Model K := ⟨⟨-1, 0.5, -1⟩, 1⟩

/-- The matrix `m2 = translate(2, 1, 0) * scale(1.5)`. -/
def m2 : Model K := ⟨⟨2, 1, 0⟩, 1.5⟩

/-- The matrix `m3 = translate(0, 0.25, 2) * scale(0.5)`. -/
def m3 : Model K := ⟨⟨0, 0.25, 2⟩, 0.5⟩

/-- A point of the solid unit cube of `makeUnitCube`, whose vertices have
coordinates `±0.5`. -/
def inUnitCube (q : Vec3 K) : Prop :=
  (-0.5 ≤ q.x ∧ q.x ≤ 0.5) ∧ (-0.5 ≤ q.y ∧ q.y ≤ 0.5) ∧ (-0.5 ≤ q.z ∧ q.z ≤ 0.5)

/-- A point of the closed box `[-5, 5]³`. -/
def inRoom (p : Vec3 K) : Prop :=
  (-5 ≤ p.x ∧ p.x ≤ 5) ∧ (-5 ≤ p.y ∧ p.y ≤ 5) ∧ (-5 ≤ p.z ∧ p.z ≤ 5)

/-- A point of the open box `(-5, 5)³`. -/
def strictlyInRoom (p : Vec3 K) : Prop :=
  (-5 < p.x ∧ p.x < 5) ∧ (-5 < p.y ∧ p.y < 5) ∧ (-5 < p.z ∧ p.z < 5)

instance (q : Vec3 K) : Decidable (inUnitCube q) := by
  unfold inUnitCube; infer_instance

instance (p : Vec3 K) : Decidable (inRoom p) := by
  unfold inRoom; infer_instance

instance (p : Vec3 K) : Decidable (strictlyInRoom p) := by
  unfold strictlyInRoom; infer_instance

/-- The three arguments of a call `glm::lookAt(eye, center, up)`. -/
structure LookAt (K : Type) where
  eye : Vec3 K
  center : Vec3 K
  up : Vec3 K

/-- The lambda `faceView`: the `glm::lookAt` call selected by the switch. -/
def faceView (lp : Vec3 K) (face : Int) : LookAt K :=
  if face = 0 then ⟨lp, lp + ⟨1, 0, 0⟩, ⟨0, -1, 0⟩⟩
  else if face = 1 then ⟨lp, lp + ⟨-1, 0, 0⟩, ⟨0, -1, 0⟩⟩
  else if face = 2 then ⟨lp, lp + ⟨0, 1, 0⟩, ⟨0, 0, 1⟩⟩
  else if face = 3 then ⟨lp, lp + ⟨0, -1, 0⟩, ⟨0, 0, -1⟩⟩
  else if face = 4 then ⟨lp, lp + ⟨0, 0, 1⟩, ⟨0, -1, 0⟩⟩
  else ⟨lp, lp + ⟨0, 0, -1⟩, ⟨0, -1, 0⟩⟩

/-- The look direction `center - eye` of a view. -/
def LookAt.dir (v : LookAt K) : Vec3 K := v.center - v.eye

/-! ## The shadow pass -/

/-- The two framebuffer names the program binds. -/
inductive Framebuffer where
  | default
  | depthFBO
  deriving DecidableEq

/-- The two programs. -/
inductive Program where
  | progDepth
  | progLit
  deriving DecidableEq

/-- The GL calls issued by the shadow pass. -/
inductive GLCmd (K : Type) where
  | viewport (w h : Nat)
  | useProgram (p : Program)
  | uniformLightPos (v : Vec3 K)
  | uniformFarPlane (f : K)
  | bindFramebuffer (fb : Framebuffer)
  | framebufferTextureLayer (layer : Nat)
  | clearDepth
  | uniformVP (view : LookAt K)
  | disableCullFace
  | uniformModel (m : Model K)
  | drawMesh

/-- The state a draw call of the depth program reads: viewport, program,
culling switch and the uniforms of `progDepth` (`uVP` is `cubeProj` times
the recorded view). -/
structure DrawState (K : Type) where
  viewport : Nat × Nat
  program : Program
  cullFace : Bool
  uLightPos : Vec3 K
  uFarPlane : K
  uVP : LookAt K
  uModel : Model K

/-- The GL state the shadow pass acts on: the draw state, the framebuffer
binding, the layer attached as depth attachment of `depthFBO`, and the
image held by each layer of `depthCubeArray`. -/
structure GLState (K Img : Type) where
  draw : DrawState K
  bound : Framebuffer
  attachment : Option Nat
  layers : Nat → Img

/-- Rasterisation by the GL implementation, taken as a parameter: the image
a depth clear leaves, and the image a draw call leaves in the attached
layer given the draw state and that layer's previous image. -/
structure Raster (K Img : Type) where
  cleared : Img
  drawMesh : DrawState K → Img → Img

/-- Apply `f` to the image of the layer that receives depth writes, if the
bound framebuffer is `depthFBO` and a layer is attached. -/
def GLState.writeTarget {Img : Type} (s : GLState K Img) (f : Img → Img) : GLState K Img :=
  match s.bound, s.attachment with
  | .depthFBO, some l => { s with layers := Function.update s.layers l (f (s.layers l)) }
  | _, _ => s

/-- A `glUniform*` call on a uniform location of `progDepth`: it changes the
uniforms of `progDepth` only while that program is in use. -/
def GLState.setUniform {Img : Type} (s : GLState K Img) (f : DrawState K → DrawState K) :
    GLState K Img :=
  match s.draw.program with
  | .progDepth => { s with draw := f s.draw }
  | .progLit => s

/-- The effect of one GL call on the state. -/
def GLState.step {Img : Type} (R : Raster K Img) (s : GLState K Img) :
    GLCmd K → GLState K Img
  | .viewport w h => { s with draw := { s.draw with viewport := (w, h) } }
  | .useProgram p => { s with draw := { s.draw with program := p } }
  | .uniformLightPos v => s.setUniform fun d => { d with uLightPos := v }
  | .uniformFarPlane f => s.setUniform fun d => { d with uFarPlane := f }
  | .bindFramebuffer fb => { s with bound := fb }
  | .framebufferTextureLayer layer =>
      match s.bound with
      | .depthFBO => { s with attachment := some layer }
      | .default => s
  | .clearDepth => s.writeTarget (fun _ => R.cleared)
  | .uniformVP view => s.setUniform fun d => { d with uVP := view }
  | .disableCullFace => { s with draw := { s.draw with cullFace := false } }
  | .uniformModel m => s.setUniform fun d => { d with uModel := m }
  | .drawMesh => s.writeTarget (R.drawMesh s.draw)

/-- Run a sequence of GL calls. -/
def GLState.run {Img : Type} (R : Raster K Img) (s : GLState K Img)
    (cmds : List (GLCmd K)) : GLState K Img :=
  cmds.foldl (GLState.step R) s

/-- The body of the inner loop of the shadow pass, for light `li` at
position `lp` and face `face`. -/
def shadowFace (lp : Vec3 K) (li face : Nat) : List (GLCmd K) :=
  [ .bindFramebuffer .depthFBO,
    .framebufferTextureLayer (li * 6 + face),
    .clearDepth,
    .uniformVP (faceView lp face),
    .disableCullFace,
    .uniformModel modelRoom, .drawMesh,
    .uniformModel m1, .drawMesh,
    .uniformModel m2, .drawMesh,
    .uniformModel m3, .drawMesh,
    .bindFramebuffer .default ]

/-- The body of the outer loop of the shadow pass, for light `li`. -/
def shadowLight {n : Nat} (lightPos : Fin n → Vec3 K) (farPlane : Fin n → K)
    (li : Fin n) : List (GLCmd K) :=
  [ .uniformLightPos (lightPos li), .uniformFarPlane (farPlane li) ] ++
    (List.range 6).flatMap (shadowFace (lightPos li) li.val)

/-- The GL calls of the shadow pass of one frame, for `n` lights. -/
def shadowPass {n : Nat} (lightPos : Fin n → Vec3 K) (farPlane : Fin n → K) :
    List (GLCmd K) :=
  [ .viewport SHADOW_RES SHADOW_RES, .useProgram .progDepth ] ++
    (List.finRange n).flatMap (shadowLight lightPos farPlane)

/-- The layers attached by `glFramebufferTextureLayer`, in call order. -/
def attachedLayers (cmds : List (GLCmd K)) : List Nat :=
  cmds.filterMap fun
    | .framebufferTextureLayer layer => some layer
    | _ => none

/-- A depth write to a layer of `depthCubeArray`. -/
inductive LayerWrite where
  | clear (layer : Nat)
  | draw (layer : Nat)
  deriving DecidableEq

/-- The depth write a GL call makes in a given state, if any. -/
def GLState.writeOf {Img : Type} (s : GLState K Img) : GLCmd K → List LayerWrite
  | .clearDepth =>
      match s.bound, s.attachment with
      | .depthFBO, some l => [.clear l]
      | _, _ => []
  | .drawMesh =>
      match s.bound, s.attachment with
      | .depthFBO, some l => [.draw l]
      | _, _ => []
  | _ => []

/-- The depth writes made by a sequence of GL calls, in order. -/
def GLState.writes {Img : Type} (R : Raster K Img) (s : GLState K Img) :
    List (GLCmd K) → List LayerWrite
  | [] => []
  | c :: cs => s.writeOf c ++ GLState.writes R (s.step R c) cs

/-- The number of layers `6 * NUM_LIGHTS` allocated for `depthCubeArray`,
for `n` lights. -/
def layerCount (n : Nat) : Nat := 6 * n

/-! ## The lighting pass -/

/-- A call `glUniform*v(location, count, src)` on a 16-element uniform
array: the first `count` elements are overwritten. -/
def uploadArray {α : Type} (count : Nat) (src : Fin count → α) (old : Fin 16 → α) :
    Fin 16 → α :=
  fun i => if h : i.val < count then src ⟨i.val, h⟩ else old i

/-- The light uniform uploads of the lighting pass. -/
def uploadLights (lightPos : Fin NUM_LIGHTS → Vec3 K) (U : LitUniforms K) : LitUniforms K :=
  { U with
    uNumLights := (NUM_LIGHTS : Nat)
    uLightPos := uploadArray NUM_LIGHTS lightPos U.uLightPos
    uLightColor := uploadArray NUM_LIGHTS lightColor U.uLightColor
    uFarPlane := uploadArray NUM_LIGHTS farPlane U.uFarPlane }

/-- The per-object GL calls of the lighting pass. -/
inductive LitCmd (K : Type) where
  | uniformModel (m : Model K)
  | uniformInvertNormals (v : Int)
  | uniformAlbedo (c : Vec3 K)
  | drawMesh

/-- The per-object uniforms in effect at a draw call of the lighting pass. -/
structure LitDraw (K : Type) where
  uModel : Model K
  uInvertNormals : Int
  uAlbedo : Vec3 K

/-- The per-object calls of the lighting pass: the room, then the three
cubes. -/
def litObjects : List (LitCmd K) :=
  [ .uniformModel modelRoom,
    .uniformInvertNormals 1,
    .uniformAlbedo ⟨0.35, 0.34, 0.36⟩,
    .drawMesh,
    .uniformInvertNormals 0,
    .uniformAlbedo ⟨0.85, 0.85, 0.9⟩,
    .uniformModel m1, .drawMesh,
    .uniformModel m2, .drawMesh,
    .uniformModel m3, .drawMesh ]

/-- The uniforms in effect at each draw call of a sequence of lighting-pass
calls, in order. -/
def litDraws (s : LitDraw K) : List (LitCmd K) → List (LitDraw K)
  | [] => []
  | .uniformModel m :: cs => litDraws { s with uModel := m } cs
  | .uniformInvertNormals v :: cs => litDraws { s with uInvertNormals := v } cs
  | .uniformAlbedo c :: cs => litDraws { s with uAlbedo := c } cs
  | .drawMesh :: cs => s :: litDraws s cs

/-! ## Quantities used to state the properties -/

/-- Laws of the exact square root, sine and cosine. -/
structure Builtins.Exact (B : Builtins K) : Prop where
  sqrt_nonneg : ∀ x, 0 ≤ B.sqrt x
  sqrt_mul_self : ∀ x, 0 ≤ x → B.sqrt x * B.sqrt x = x
  sin_sq_add_cos_sq : ∀ t, B.sin t * B.sin t + B.cos t * B.cos t = 1

/-- The scalar by which light `i` scales its colour in the accumulation of
`litFS`: `0.06 + ndotl * s`. -/
def lightWeight (B : Builtins K) (U : LitUniforms K) (W N : Vec3 K) (i : Fin 16) : K :=
  0.06 + ndotl N (normalize B (U.uLightPos i - W)) * (shadowFactor B U W i.val).getD 0

/-- The depth writes of one clear and four draws into layer `l`. -/
def faceWrites (l : Nat) : List LayerWrite :=
  [.clear l, .draw l, .draw l, .draw l, .draw l]

/-- The image the shadow pass leaves in the layer of a light at `lp` with
far plane `fp`, for face `face`: a clear followed by the four draws. -/
def faceImage {Img : Type} (R : Raster K Img) (lp : Vec3 K) (fp : K) (face : Nat) : Img :=
  let d : DrawState K :=
    ⟨(SHADOW_RES, SHADOW_RES), .progDepth, false, lp, fp, faceView lp face, modelRoom⟩
  R.drawMesh { d with uModel := m3 } (R.drawMesh { d with uModel := m2 }
    (R.drawMesh { d with uModel := m1 } (R.drawMesh d R.cleared)))

/-- The image the shadow pass leaves in layer `l`, for `n` lights. -/
def shadowImage {Img : Type} {n : Nat} (R : Raster K Img) (lightPos : Fin n → Vec3 K)
    (farPlane : Fin n → K) (l : Nat) : Img :=
  if h : l / 6 < n then faceImage R (lightPos ⟨l / 6, h⟩) (farPlane ⟨l / 6, h⟩) (l % 6)
  else R.cleared

/-- The part of the draw state the outer loop of the shadow pass relies on. -/
def GLState.ready {Img : Type} (s : GLState K Img) : Prop :=
  s.draw.viewport = (SHADOW_RES, SHADOW_RES) ∧ s.draw.program = .progDepth

/-- The part of the draw state the inner loop of the shadow pass relies on. -/
def GLState.readyFor {Img : Type} (s : GLState K Img) (lp : Vec3 K) (fp : K) : Prop :=
  s.draw.viewport = (SHADOW_RES, SHADOW_RES) ∧ s.draw.program = .progDepth ∧
    s.draw.uLightPos = lp ∧ s.draw.uFarPlane = fp

/-! ## Sample inputs -/

/-- Sample uniforms of the lighting pass: the light uploads of the first
frame over cleared uniforms, the albedo of the cubes, and a sampler that
reads depth 1 everywhere. -/
def demoUniforms : LitUniforms K :=
  uploadLights lightPosInit
    ⟨⟨0.85, 0.85, 0.9⟩, 0, 0, fun _ => ⟨0, 0, 0⟩, fun _ => ⟨0, 0, 0⟩, fun _ => 0, fun _ _ => 1⟩

/-- The sample uniforms with the unused slot 5 of every light array filled. -/
def demoUniformsAlt : LitUniforms K :=
  { (demoUniforms : LitUniforms K) with
    uLightPos := Function.update demoUniforms.uLightPos 5 ⟨9, 9, 9⟩
    uLightColor := Function.update demoUniforms.uLightColor 5 ⟨7, 7, 7⟩
    uFarPlane := Function.update demoUniforms.uFarPlane 5 1 }

/-- Sample uniforms with one light at the origin, far plane 18, and a
sampler that reads the depth `1 / 18` of a surface at distance 1. -/
def nearOccluderUniforms : LitUniforms K :=
  ⟨⟨1, 1, 1⟩, 0, 1, fun _ => ⟨0, 0, 0⟩, fun _ => ⟨1, 1, 1⟩, fun _ => 18, fun _ _ => 1 / 18⟩

/-- A sample rasteriser whose images count the draws since the last clear. -/
def countingRaster : Raster K Nat :=
  ⟨0, fun _ img => img + 1⟩

/-- A sample GL state, as the lighting pass leaves it, with every layer
holding `img`. -/
def sampleState {Img : Type} (img : Img) : GLState K Img :=
  ⟨⟨(1280, 720), .progLit, false, ⟨0, 0, 0⟩, 0, ⟨⟨0, 0, 0⟩, ⟨0, 0, 0⟩, ⟨0, 0, 0⟩⟩, modelRoom⟩,
    .default, none, fun _ => img⟩

end Host

section Proofs

variable {K : Type} [LinearOrderedField K] {Img : Type}

/-! ## Auxiliary lemmas -/

/-! ### Array indexing and `shadowFactor` -/

theorem index_fin {α : Type} (a : Fin 16 → α) (i : Fin 16) :
    index a i.val = some (a i) := by
  simp [index]

/-- The value of `shadowFactor` at a valid light index. -/
theorem shadowFactor_eq (B : Builtins K) (U : LitUniforms K) (worldPos : Vec3 K)
    (li : Fin 16) :
    shadowFactor B U worldPos li.val =
      some (if length B (worldPos - U.uLightPos li) / U.uFarPlane li - 0.003 >
            U.uDepthCubeArray (normalize B (worldPos - U.uLightPos li)) li.val
          then 0 else 1) := by
  simp [shadowFactor, index_fin]

/-! ### Vector components -/

@[simp] theorem Vec3.add_x (a b : Vec3 K) : (a + b).x = a.x + b.x := rfl
@[simp] theorem Vec3.add_y (a b : Vec3 K) : (a + b).y = a.y + b.y := rfl
@[simp] theorem Vec3.add_z (a b : Vec3 K) : (a + b).z = a.z + b.z := rfl
@[simp] theorem Vec3.sub_x (a b : Vec3 K) : (a - b).x = a.x - b.x := rfl
@[simp] theorem Vec3.sub_y (a b : Vec3 K) : (a - b).y = a.y - b.y := rfl
@[simp] theorem Vec3.sub_z (a b : Vec3 K) : (a - b).z = a.z - b.z := rfl
@[simp] theorem Vec3.neg_x (a : Vec3 K) : (-a).x = -a.x := rfl
@[simp] theorem Vec3.neg_y (a : Vec3 K) : (-a).y = -a.y := rfl
@[simp] theorem Vec3.neg_z (a : Vec3 K) : (-a).z = -a.z := rfl
@[simp] theorem Vec3.zero_x : (0 : Vec3 K).x = 0 := rfl
@[simp] theorem Vec3.zero_y : (0 : Vec3 K).y = 0 := rfl
@[simp] theorem Vec3.zero_z : (0 : Vec3 K).z = 0 := rfl

/-! ### Face views -/

theorem faceView_cases (lp : Vec3 K) (face : Int) :
    faceView lp face = faceView lp 0 ∨ faceView lp face = faceView lp 1 ∨
    faceView lp face = faceView lp 2 ∨ faceView lp face = faceView lp 3 ∨
    faceView lp face = faceView lp 4 ∨ faceView lp face = faceView lp 5 := by
  by_cases h0 : face = 0
  · subst h0; exact Or.inl rfl
  by_cases h1 : face = 1
  · subst h1; exact Or.inr (Or.inl rfl)
  by_cases h2 : face = 2
  · subst h2; exact Or.inr (Or.inr (Or.inl rfl))
  by_cases h3 : face = 3
  · subst h3; exact Or.inr (Or.inr (Or.inr (Or.inl rfl)))
  by_cases h4 : face = 4
  · subst h4; exact Or.inr (Or.inr (Or.inr (Or.inr (Or.inl rfl))))
  · refine Or.inr (Or.inr (Or.inr (Or.inr (Or.inr ?_))))
    simp [faceView, h0, h1, h2, h3, h4]

/-! ### The light loop -/

/-- The value of `shadowFactor` at a valid index is 0 or 1. -/
theorem shadowFactor_getD (B : Builtins K) (U : LitUniforms K) (W : Vec3 K) (i : Fin 16) :
    shadowFactor B U W i.val = some ((shadowFactor B U W i.val).getD 0) ∧
      ((shadowFactor B U W i.val).getD 0 = 0 ∨ (shadowFactor B U W i.val).getD 0 = 1) := by
  rw [shadowFactor_eq]
  simp only [Option.getD_some, true_and]
  split_ifs
  · exact Or.inl rfl
  · exact Or.inr rfl

theorem lightStep_eq (B : Builtins K) (U : LitUniforms K) (W N color : Vec3 K) (i : Fin 16) :
    lightStep B U W N color i.val =
      some (color + (U.uLightColor i).scale (lightWeight B U W N i)) := by
  have h := (shadowFactor_getD B U W i).1
  unfold lightStep lightWeight
  rw [h]
  simp [index_fin]

theorem lightLoop_range (B : Builtins K) (U : LitUniforms K) (W N : Vec3 K) (k : Nat)
    (hk : k ≤ 16) :
    (List.range k).foldlM (lightStep B U W N) 0 =
      some ⟨∑ i : Fin k, (U.uLightColor (Fin.castLE hk i)).x * lightWeight B U W N (Fin.castLE hk i),
            ∑ i : Fin k, (U.uLightColor (Fin.castLE hk i)).y * lightWeight B U W N (Fin.castLE hk i),
            ∑ i : Fin k, (U.uLightColor (Fin.castLE hk i)).z * lightWeight B U W N (Fin.castLE hk i)⟩ := by
  induction k with
  | zero => simp; rfl
  | succ k ih =>
    have hk2 : k ≤ 16 := Nat.le_of_succ_le hk
    rw [List.range_succ, List.foldlM_append, ih hk2]
    have hlt : k < 16 := hk
    have h := lightStep_eq B U W N
      ⟨∑ i : Fin k, (U.uLightColor (Fin.castLE hk2 i)).x * lightWeight B U W N (Fin.castLE hk2 i),
            ∑ i : Fin k, (U.uLightColor (Fin.castLE hk2 i)).y * lightWeight B U W N (Fin.castLE hk2 i),
            ∑ i : Fin k, (U.uLightColor (Fin.castLE hk2 i)).z * lightWeight B U W N (Fin.castLE hk2 i)⟩
      ⟨k, hlt⟩
    simp only at h
    simp only [Option.some_bind, List.foldlM_cons, List.foldlM_nil, h, Option.bind_eq_bind, Option.pure_def, Option.bind_some]
    rw [Fin.sum_univ_castSucc, Fin.sum_univ_castSucc, Fin.sum_univ_castSucc]
    rfl

/-! ### Layer enumeration -/

theorem range_six : List.range 6 = [0, 1, 2, 3, 4, 5] := by decide

/-- Six consecutive blocks per index, laid end to end, enumerate `6 * n` indices. -/
theorem flatMap_blocks {β : Type} (G : Nat → List β) (n : Nat) :
    (List.range n).flatMap (fun i => (List.range 6).flatMap (fun f => G (i * 6 + f))) =
      (List.range (6 * n)).flatMap G := by
  induction n with
  | zero => simp
  | succ k ih =>
    rw [List.range_succ, List.flatMap_append, ih]
    have h : List.range (6 * (k + 1)) =
        List.range (6 * k) ++ [6 * k, 6 * k + 1, 6 * k + 2, 6 * k + 3, 6 * k + 4, 6 * k + 5] := by
      rw [show 6 * (k + 1) = 6 * k + 1 + 1 + 1 + 1 + 1 + 1 by ring]
      simp [List.range_succ]
    rw [h, List.flatMap_append]
    simp [range_six, Nat.mul_comm]

theorem flatMap_finRange {β : Type} (n : Nat) (h : Nat → List β) :
    (List.finRange n).flatMap (fun li => h li.val) = (List.range n).flatMap h := by
  rw [← List.map_coe_finRange, List.flatMap_map]

theorem attachedLayers_append (a b : List (GLCmd K)) :
    attachedLayers (a ++ b) = attachedLayers a ++ attachedLayers b := by
  simp [attachedLayers]

theorem attachedLayers_flatMap {α : Type} (xs : List α) (f : α → List (GLCmd K)) :
    attachedLayers (xs.flatMap f) = xs.flatMap (fun x => attachedLayers (f x)) := by
  induction xs with
  | nil => rfl
  | cons x xs ih => simp [List.flatMap_cons, attachedLayers_append, ih]

theorem attachedLayers_shadowFace (lp : Vec3 K) (li face : Nat) :
    attachedLayers (shadowFace lp li face) = [li * 6 + face] := by
  rfl

theorem attachedLayers_shadowLight {n : Nat} (lightPos : Fin n → Vec3 K)
    (farPlane : Fin n → K) (li : Fin n) :
    attachedLayers (shadowLight lightPos farPlane li) =
      (List.range 6).flatMap (fun f => [li.val * 6 + f]) := by
  unfold shadowLight
  rw [attachedLayers_append, attachedLayers_flatMap]
  simp [attachedLayers_shadowFace]
  rfl

theorem attachedLayers_shadowPass {n : Nat} (lightPos : Fin n → Vec3 K)
    (farPlane : Fin n → K) :
    attachedLayers (shadowPass lightPos farPlane) = List.range (6 * n) := by
  unfold shadowPass
  rw [attachedLayers_append, attachedLayers_flatMap]
  simp only [attachedLayers_shadowLight]
  rw [flatMap_finRange n (fun i => (List.range 6).flatMap (fun f => [i * 6 + f])),
    flatMap_blocks (fun l => [l])]
  simp [attachedLayers]

/-! ### The GL state machine -/

theorem setUniform_bound (s : GLState K Img) (f : DrawState K → DrawState K) :
    (s.setUniform f).bound = s.bound := by
  unfold GLState.setUniform
  split <;> rfl

theorem setUniform_attachment (s : GLState K Img) (f : DrawState K → DrawState K) :
    (s.setUniform f).attachment = s.attachment := by
  unfold GLState.setUniform
  split <;> rfl

theorem setUniform_layers (s : GLState K Img) (f : DrawState K → DrawState K) :
    (s.setUniform f).layers = s.layers := by
  unfold GLState.setUniform
  split <;> rfl

theorem setUniform_progDepth (s : GLState K Img) (f : DrawState K → DrawState K)
    (h : s.draw.program = .progDepth) : s.setUniform f = { s with draw := f s.draw } := by
  unfold GLState.setUniform
  rw [h]

theorem run_append (R : Raster K Img) (s : GLState K Img) (a b : List (GLCmd K)) :
    s.run R (a ++ b) = (s.run R a).run R b := by
  simp [GLState.run]

theorem writes_append (R : Raster K Img) (s : GLState K Img) (a b : List (GLCmd K)) :
    s.writes R (a ++ b) = s.writes R a ++ (s.run R a).writes R b := by
  induction a generalizing s with
  | nil => simp [GLState.writes, GLState.run]
  | cons c cs ih => simp [GLState.writes, GLState.run, ih]

theorem writes_flatMap {α : Type} (R : Raster K Img) (f : α → List (GLCmd K))
    (g : α → List LayerWrite) (h : ∀ x (s : GLState K Img), s.writes R (f x) = g x)
    (xs : List α) (s : GLState K Img) :
    s.writes R (xs.flatMap f) = xs.flatMap g := by
  induction xs generalizing s with
  | nil => rfl
  | cons x xs ih => simp [List.flatMap_cons, writes_append, h, ih]

theorem writes_shadowFace (R : Raster K Img) (s : GLState K Img) (lp : Vec3 K)
    (li face : Nat) :
    s.writes R (shadowFace lp li face) = faceWrites (li * 6 + face) := by
  simp [shadowFace, GLState.writes, GLState.step, GLState.writeOf, GLState.writeTarget,
    faceWrites, setUniform_bound, setUniform_attachment]

theorem writes_shadowLight {n : Nat} (R : Raster K Img) (s : GLState K Img)
    (lightPos : Fin n → Vec3 K) (farPlane : Fin n → K) (li : Fin n) :
    s.writes R (shadowLight lightPos farPlane li) =
      (List.range 6).flatMap (fun f => faceWrites (li.val * 6 + f)) := by
  unfold shadowLight
  rw [writes_append, writes_flatMap R _ _ (fun f s => writes_shadowFace R s _ _ f)]
  simp [GLState.writes, GLState.writeOf]

theorem writes_shadowPass {n : Nat} (R : Raster K Img) (s : GLState K Img)
    (lightPos : Fin n → Vec3 K) (farPlane : Fin n → K) :
    s.writes R (shadowPass lightPos farPlane) = (List.range (6 * n)).flatMap faceWrites := by
  unfold shadowPass
  rw [writes_append,
    writes_flatMap R _ _ (fun li s => writes_shadowLight R s lightPos farPlane li),
    flatMap_finRange n (fun i => (List.range 6).flatMap (fun f => faceWrites (i * 6 + f))),
    flatMap_blocks faceWrites]
  simp [GLState.writes, GLState.writeOf]

theorem run_flatMap_layers {α : Type} (R : Raster K Img) (P : GLState K Img → Prop)
    (f : α → List (GLCmd K)) (key : α → Nat → Prop) (img : Nat → Img)
    (hstep : ∀ x s, P s → P (s.run R (f x)) ∧
      ∀ l, ((s.run R (f x)).layers l = img l ∧ key x l) ∨
           ((s.run R (f x)).layers l = s.layers l ∧ ¬ key x l))
    (xs : List α) (s : GLState K Img) (hs : P s) :
    P (s.run R (xs.flatMap f)) ∧
      ∀ l, ((s.run R (xs.flatMap f)).layers l = img l ∧ ∃ x ∈ xs, key x l) ∨
           ((s.run R (xs.flatMap f)).layers l = s.layers l ∧ ¬ ∃ x ∈ xs, key x l) := by
  induction xs generalizing s with
  | nil => exact ⟨hs, fun l => Or.inr ⟨rfl, by simp⟩⟩
  | cons x xs ih =>
    rw [List.flatMap_cons, run_append]
    obtain ⟨h1, h2⟩ := hstep x s hs
    obtain ⟨h3, h4⟩ := ih (s.run R (f x)) h1
    refine ⟨h3, fun l => ?_⟩
    rcases h4 l with ⟨e, x', hx', hk⟩ | ⟨e, hno⟩
    · exact Or.inl ⟨e, x', List.mem_cons_of_mem _ hx', hk⟩
    · rcases h2 l with ⟨e2, hk⟩ | ⟨e2, hk⟩
      · exact Or.inl ⟨e.trans e2, x, List.mem_cons_self _ _, hk⟩
      · refine Or.inr ⟨e.trans e2, ?_⟩
        rintro ⟨y, hy, hky⟩
        rcases List.mem_cons.mp hy with rfl | hy
        · exact hk hky
        · exact hno ⟨y, hy, hky⟩

theorem run_shadowFace (R : Raster K Img) (s : GLState K Img) (lp : Vec3 K) (fp : K)
    (li face : Nat) (hs : s.readyFor lp fp) :
    (s.run R (shadowFace lp li face)).readyFor lp fp ∧
      ∀ l, ((s.run R (shadowFace lp li face)).layers l = faceImage R lp fp (l - li * 6) ∧
              l = li * 6 + face) ∨
           ((s.run R (shadowFace lp li face)).layers l = s.layers l ∧ ¬ l = li * 6 + face) := by
  obtain ⟨⟨d1, d2, d3, d4, d5, d6, d7⟩, b, a, ly⟩ := s
  obtain ⟨h1, h2, h3, h4⟩ := hs
  simp only at h1 h2 h3 h4
  subst h1 h2 h3 h4
  refine ⟨by simp [GLState.readyFor, shadowFace, GLState.run, GLState.step,
    GLState.writeTarget, GLState.setUniform], fun l => ?_⟩
  by_cases hl : l = li * 6 + face
  · left
    subst hl
    simp [shadowFace, GLState.run, GLState.step, GLState.writeTarget, GLState.setUniform,
      faceImage]
  · right
    simp [shadowFace, GLState.run, GLState.step, GLState.writeTarget, GLState.setUniform, hl]

theorem run_shadowLight {n : Nat} (R : Raster K Img) (s : GLState K Img)
    (lightPos : Fin n → Vec3 K) (farPlane : Fin n → K) (li : Fin n) (hs : s.ready) :
    (s.run R (shadowLight lightPos farPlane li)).ready ∧
      ∀ l, ((s.run R (shadowLight lightPos farPlane li)).layers l =
              shadowImage R lightPos farPlane l ∧ l / 6 = li.val) ∨
           ((s.run R (shadowLight lightPos farPlane li)).layers l = s.layers l ∧
              ¬ l / 6 = li.val) := by
  unfold shadowLight
  rw [run_append]
  set s0 := s.run R [.uniformLightPos (lightPos li), .uniformFarPlane (farPlane li)] with hs0
  have hr : s0.readyFor (lightPos li) (farPlane li) := by
    obtain ⟨h1, h2⟩ := hs
    simp [hs0, GLState.readyFor, GLState.run, GLState.step, setUniform_progDepth, h1, h2]
  have hl0 : s0.layers = s.layers := by
    simp [hs0, GLState.run, GLState.step, setUniform_layers]
  obtain ⟨h3, h4⟩ := run_flatMap_layers R (fun t => t.readyFor (lightPos li) (farPlane li))
    (shadowFace (lightPos li) li.val) (fun face l => l = li.val * 6 + face)
    (fun l => faceImage R (lightPos li) (farPlane li) (l - li.val * 6))
    (fun face t ht => run_shadowFace R t (lightPos li) (farPlane li) li.val face ht)
    (List.range 6) s0 hr
  refine ⟨⟨h3.1, h3.2.1⟩, fun l => ?_⟩
  rcases h4 l with ⟨e, face, hf, hk⟩ | ⟨e, hno⟩
  · left
    have hf6 : face < 6 := List.mem_range.mp hf
    have hdiv : l / 6 = li.val := by omega
    refine ⟨?_, hdiv⟩
    rw [e]
    have hlt : l / 6 < n := by rw [hdiv]; exact li.isLt
    have hfin : (⟨l / 6, hlt⟩ : Fin n) = li := Fin.ext hdiv
    have hmod : l - li.val * 6 = l % 6 := by omega
    simp [shadowImage, hlt, hfin, hmod]
  · right
    refine ⟨by rw [e, hl0], fun hdiv => hno ⟨l % 6, ?_, ?_⟩⟩
    · exact List.mem_range.mpr (Nat.mod_lt _ (by norm_num))
    · omega

theorem run_shadowPass_layers {n : Nat} (R : Raster K Img) (s : GLState K Img)
    (lightPos : Fin n → Vec3 K) (farPlane : Fin n → K) (l : Nat) :
    (s.run R (shadowPass lightPos farPlane)).layers l =
      if l < 6 * n then shadowImage R lightPos farPlane l else s.layers l := by
  unfold shadowPass
  rw [run_append]
  set s0 := s.run R [.viewport SHADOW_RES SHADOW_RES, .useProgram .progDepth] with hs0
  have hr : s0.ready := by
    simp [hs0, GLState.ready, GLState.run, GLState.step]
  have hl0 : s0.layers = s.layers := by
    simp [hs0, GLState.run, GLState.step]
  obtain ⟨-, h4⟩ := run_flatMap_layers R (fun t => t.ready)
    (shadowLight lightPos farPlane) (fun (li : Fin n) l => l / 6 = li.val)
    (shadowImage R lightPos farPlane)
    (fun li t ht => run_shadowLight R t lightPos farPlane li ht)
    (List.finRange n) s0 hr
  rcases h4 l with ⟨e, li, -, hk⟩ | ⟨e, hno⟩
  · have hlt : l < 6 * n := by
      have := li.isLt
      omega
    rw [e, if_pos hlt]
  · have hge : ¬ l < 6 * n := by
      intro hlt
      have hdiv : l / 6 < n := by omega
      exact hno ⟨⟨l / 6, hdiv⟩, List.mem_finRange _, rfl⟩
    rw [e, if_neg hge, hl0]

/-! ### Exact library functions and distance bounds -/

theorem real_exact : Builtins.Exact (⟨Real.sqrt, Real.sin, Real.cos⟩ : Builtins ℝ) where
  sqrt_nonneg := Real.sqrt_nonneg
  sqrt_mul_self := fun x hx => Real.mul_self_sqrt hx
  sin_sq_add_cos_sq := fun t => by
    have := Real.sin_sq_add_cos_sq t
    nlinarith

theorem Builtins.Exact.sin_bounds {B : Builtins K} (hB : B.Exact) (t : K) :
    -1 ≤ B.sin t ∧ B.sin t ≤ 1 := by
  have h := hB.sin_sq_add_cos_sq t
  constructor <;> nlinarith [mul_self_nonneg (B.cos t), mul_self_nonneg (B.sin t)]

theorem Builtins.Exact.cos_bounds {B : Builtins K} (hB : B.Exact) (t : K) :
    -1 ≤ B.cos t ∧ B.cos t ≤ 1 := by
  have h := hB.sin_sq_add_cos_sq t
  constructor <;> nlinarith [mul_self_nonneg (B.cos t), mul_self_nonneg (B.sin t)]

theorem Builtins.Exact.sqrt_pos {B : Builtins K} (hB : B.Exact) {x : K} (hx : 0 < x) :
    0 < B.sqrt x := by
  rcases (hB.sqrt_nonneg x).lt_or_eq with h | h
  · exact h
  · have := hB.sqrt_mul_self x hx.le
    rw [← h] at this
    simp at this
    exact absurd this.symm (ne_of_gt hx)

theorem Builtins.Exact.sqrt_lt {B : Builtins K} (hB : B.Exact) {x b : K} (hx : 0 ≤ x)
    (hb : 0 ≤ b) (h : x < b * b) : B.sqrt x < b := by
  by_contra hcon
  have h1 : b ≤ B.sqrt x := not_lt.mp hcon
  have h2 := hB.sqrt_mul_self x hx
  nlinarith [mul_le_mul h1 h1 hb (hB.sqrt_nonneg x)]

theorem dot_self_nonneg (v : Vec3 K) : 0 ≤ Vec3.dot v v := by
  unfold Vec3.dot
  nlinarith [mul_self_nonneg v.x, mul_self_nonneg v.y, mul_self_nonneg v.z]

theorem dot_sub_lt_of_room (p l : Vec3 K) (hp : inRoom p) (hl : strictlyInRoom l) :
    Vec3.dot (p - l) (p - l) < 300 := by
  obtain ⟨⟨a1, a2⟩, ⟨a3, a4⟩, a5, a6⟩ := hp
  obtain ⟨⟨b1, b2⟩, ⟨b3, b4⟩, b5, b6⟩ := hl
  have e : Vec3.dot (p - l) (p - l) =
      (p.x - l.x) * (p.x - l.x) + (p.y - l.y) * (p.y - l.y) + (p.z - l.z) * (p.z - l.z) := rfl
  rw [e]
  have hx : (p.x - l.x) * (p.x - l.x) < 100 := by
    nlinarith [mul_pos (show 0 < 10 - (p.x - l.x) by linarith) (show 0 < 10 + (p.x - l.x) by linarith)]
  have hy : (p.y - l.y) * (p.y - l.y) < 100 := by
    nlinarith [mul_pos (show 0 < 10 - (p.y - l.y) by linarith) (show 0 < 10 + (p.y - l.y) by linarith)]
  have hz : (p.z - l.z) * (p.z - l.z) < 100 := by
    nlinarith [mul_pos (show 0 < 10 - (p.z - l.z) by linarith) (show 0 < 10 + (p.z - l.z) by linarith)]
  linarith

theorem animateLights_strictlyInRoom (B : Builtins K) (hB : B.Exact) (t : K)
    (prev : Fin NUM_LIGHTS → Vec3 K) (hprev : (prev 0).y = 2.8) (i : Fin NUM_LIGHTS) :
    strictlyInRoom (animateLights B t prev i) := by
  have s1 := hB.sin_bounds t
  have c1 := hB.cos_bounds t
  have s2 := hB.sin_bounds (t * 0.7)
  have c2 := hB.cos_bounds (t * 0.7)
  have s3 := hB.sin_bounds (t * 1.3)
  have s4 := hB.sin_bounds (t * 0.5)
  have c4 := hB.cos_bounds (t * 0.5)
  have c5 := hB.cos_bounds (t * 0.9)
  fin_cases i
  · simp only [strictlyInRoom, animateLights, hprev]
    norm_num
    refine ⟨⟨?_, ?_⟩, ⟨?_, ?_⟩⟩ <;> linarith [s1.1, s1.2, c1.1, c1.2]
  · simp only [strictlyInRoom, animateLights]
    norm_num
    refine ⟨⟨?_, ?_⟩, ⟨?_, ?_⟩, ⟨?_, ?_⟩⟩ <;> linarith [s2.1, s2.2, c2.1, c2.2, s3.1, s3.2]
  · simp only [strictlyInRoom, animateLights]
    norm_num
    refine ⟨⟨?_, ?_⟩, ⟨?_, ?_⟩, ⟨?_, ?_⟩⟩ <;> linarith [s4.1, s4.2, c4.1, c4.2, c5.1, c5.2]

theorem farPlane_eq (i : Fin NUM_LIGHTS) : (farPlane i : K) = 18 := by
  fin_cases i <;> simp [farPlane] <;> norm_num

theorem depthFS_room (B : Builtins K) (hB : B.Exact) (p l : Vec3 K) (hp : inRoom p)
    (hl : strictlyInRoom l) : 0 ≤ depthFS B p l 18 ∧ depthFS B p l 18 < 1 := by
  unfold depthFS length
  have h0 := dot_self_nonneg (p - l)
  have h1 := dot_sub_lt_of_room p l hp hl
  have h2 : B.sqrt (Vec3.dot (p - l) (p - l)) < 18 :=
    hB.sqrt_lt h0 (by norm_num) (by linarith)
  constructor
  · exact div_nonneg (hB.sqrt_nonneg _) (by norm_num)
  · rw [div_lt_one (by norm_num)]
    exact h2

theorem modelRoom_apply_inRoom (q : Vec3 K) (hq : inUnitCube q) :
    inRoom ((modelRoom : Model K).apply q) := by
  obtain ⟨⟨a1, a2⟩, ⟨a3, a4⟩, a5, a6⟩ := hq
  have e : (modelRoom : Model K).apply q = ⟨0 + q.x * 10, 0 + q.y * 10, 0 + q.z * 10⟩ := rfl
  rw [e]
  simp only [inRoom]
  norm_num at a1 a2 a3 a4 a5 a6 ⊢
  refine ⟨⟨?_, ?_⟩, ⟨?_, ?_⟩, ⟨?_, ?_⟩⟩ <;> linarith

/-! ### Dot products, draws and uniform uploads -/

theorem dot_normalize (B : Builtins K) (n L : Vec3 K) :
    Vec3.dot (normalize B n) L = Vec3.dot n L / length B n := by
  simp only [Vec3.dot, normalize]
  ring

theorem dot_neg_left (a b : Vec3 K) : Vec3.dot (-a) b = -Vec3.dot a b := by
  simp only [Vec3.dot, Vec3.neg_x, Vec3.neg_y, Vec3.neg_z]
  ring

theorem dot_self_pos (v : Vec3 K) (hv : v ≠ 0) : 0 < Vec3.dot v v := by
  rcases (dot_self_nonneg v).lt_or_eq with h | h
  · exact h
  · exfalso
    apply hv
    unfold Vec3.dot at h
    have hx : v.x = 0 := by
      nlinarith [mul_self_nonneg v.x, mul_self_nonneg v.y, mul_self_nonneg v.z]
    have hy : v.y = 0 := by
      nlinarith [mul_self_nonneg v.x, mul_self_nonneg v.y, mul_self_nonneg v.z]
    have hz : v.z = 0 := by
      nlinarith [mul_self_nonneg v.x, mul_self_nonneg v.y, mul_self_nonneg v.z]
    ext <;> simp [hx, hy, hz]

theorem litDraws_litObjects (s : LitDraw K) :
    litDraws s litObjects =
      [⟨modelRoom, 1, ⟨0.35, 0.34, 0.36⟩⟩, ⟨m1, 0, ⟨0.85, 0.85, 0.9⟩⟩,
        ⟨m2, 0, ⟨0.85, 0.85, 0.9⟩⟩, ⟨m3, 0, ⟨0.85, 0.85, 0.9⟩⟩] := by
  rfl

theorem lightWeight_nonneg (B : Builtins K) (U : LitUniforms K) (W N : Vec3 K) (i : Fin 16) :
    0 ≤ lightWeight B U W N i := by
  unfold lightWeight ndotl
  have h1 : (0 : K) ≤ max (Vec3.dot N (normalize B (U.uLightPos i - W))) 0 := le_max_right _ _
  have h2 : (0 : K) ≤ (shadowFactor B U W i.val).getD 0 := by
    rcases (shadowFactor_getD B U W i).2 with h | h <;> rw [h]
    exact zero_le_one
  have h3 := mul_nonneg h1 h2
  have h4 : (0 : K) ≤ 0.06 := by norm_num
  linarith

theorem litFS_eq (B : Builtins K) (U : LitUniforms K) (W Normal : Vec3 K)
    (hn : U.uNumLights.toNat ≤ 16) :
    litFS B U W Normal = some
      ⟨U.uAlbedo.x * ∑ i : Fin U.uNumLights.toNat, (U.uLightColor (i.castLE hn)).x *
          lightWeight B U W (shadingNormal B U.uInvertNormals Normal) (i.castLE hn),
        U.uAlbedo.y * ∑ i : Fin U.uNumLights.toNat, (U.uLightColor (i.castLE hn)).y *
          lightWeight B U W (shadingNormal B U.uInvertNormals Normal) (i.castLE hn),
        U.uAlbedo.z * ∑ i : Fin U.uNumLights.toNat, (U.uLightColor (i.castLE hn)).z *
          lightWeight B U W (shadingNormal B U.uInvertNormals Normal) (i.castLE hn),
        1⟩ := by
  unfold litFS lightLoop
  simp only [lightLoop_range B U W _ _ hn]
  rfl

theorem foldlM_congr_mem {α β : Type} (f g : β → α → Option β) (l : List α)
    (h : ∀ a ∈ l, ∀ b, f b a = g b a) (b : β) : l.foldlM f b = l.foldlM g b := by
  induction l generalizing b with
  | nil => rfl
  | cons a l ih =>
    simp only [List.foldlM_cons]
    rw [h a (List.mem_cons_self _ _) b]
    congr 1
    funext b2
    exact ih (fun a2 ha2 => h a2 (List.mem_cons_of_mem _ ha2)) b2

theorem lightStep_congr (B : Builtins K) (U V : LitUniforms K) (W N color : Vec3 K)
    (i : Fin 16) (hs : U.uDepthCubeArray = V.uDepthCubeArray)
    (hp : U.uLightPos i = V.uLightPos i) (hc : U.uLightColor i = V.uLightColor i)
    (hf : U.uFarPlane i = V.uFarPlane i) :
    lightStep B U W N color i.val = lightStep B V W N color i.val := by
  have e : shadowFactor B U W i.val = shadowFactor B V W i.val := by
    rw [shadowFactor_eq, shadowFactor_eq, hs, hp, hf]
  rw [lightStep_eq, lightStep_eq]
  unfold lightWeight
  rw [e, hp, hc]

theorem uploadArray_slot {α : Type} (count : Nat) (src : Fin count → α) (old : Fin 16 → α)
    (i : Fin count) (h : i.val < 16) : uploadArray count src old ⟨i.val, h⟩ = src i := by
  simp [uploadArray]

theorem cube_apply_inRoom (q : Vec3 K) (hq : inUnitCube q) :
    inRoom ((m1 : Model K).apply q) ∧ inRoom ((m2 : Model K).apply q) ∧
      inRoom ((m3 : Model K).apply q) := by
  obtain ⟨⟨a1, a2⟩, ⟨a3, a4⟩, a5, a6⟩ := hq
  have e1 : (m1 : Model K).apply q = ⟨-1 + q.x * 1, 0.5 + q.y * 1, -1 + q.z * 1⟩ := rfl
  have e2 : (m2 : Model K).apply q = ⟨2 + q.x * 1.5, 1 + q.y * 1.5, 0 + q.z * 1.5⟩ := rfl
  have e3 : (m3 : Model K).apply q = ⟨0 + q.x * 0.5, 0.25 + q.y * 0.5, 2 + q.z * 0.5⟩ := rfl
  rw [e1, e2, e3]
  simp only [inRoom]
  norm_num at a1 a2 a3 a4 a5 a6 ⊢
  refine ⟨⟨⟨?_, ?_⟩, ⟨?_, ?_⟩, ⟨?_, ?_⟩⟩, ⟨⟨?_, ?_⟩, ⟨?_, ?_⟩, ⟨?_, ?_⟩⟩,
    ⟨⟨?_, ?_⟩, ⟨?_, ?_⟩, ⟨?_, ?_⟩⟩⟩ <;> linarith

theorem real_sqrt_axis (a : ℝ) (ha : 0 ≤ a) :
    length (Builtins.mk Real.sqrt Real.sin Real.cos) ((⟨a, 0, 0⟩ : Vec3 ℝ) - ⟨0, 0, 0⟩) = a := by
  simp only [length, Vec3.dot, Vec3.sub_x, Vec3.sub_y, Vec3.sub_z]
  rw [show (a - 0) * (a - 0) + (0 - 0) * (0 - 0) + (0 - 0) * (0 - 0) = a * a by ring]
  exact Real.sqrt_mul_self ha

/-! ## The claims -/

/-! ### C1 -/

/-- C1: at every valid light index, with `current` the normalized
fragment-to-light distance and `closest` the sampled depth, `shadowFactor`
returns 1 exactly when `current - 0.003 ≤ closest` and 0 exactly when not;
so its result is always 0 or 1. -/
theorem shadowFactor_binary (B : Builtins K) (U : LitUniforms K) (worldPos : Vec3 K)
    (li : Fin 16) :
    let L := worldPos - U.uLightPos li
    let current := length B L / U.uFarPlane li
    let closest := U.uDepthCubeArray (normalize B L) li.val
    (shadowFactor B U worldPos li.val = some 1 ↔ current - 0.003 ≤ closest) ∧
    (shadowFactor B U worldPos li.val = some 0 ↔ ¬ (current - 0.003 ≤ closest)) ∧
    (shadowFactor B U worldPos li.val = some 0 ∨
      shadowFactor B U worldPos li.val = some 1) := by
  intro L current closest
  rw [shadowFactor_eq]
  by_cases h : current - 0.003 ≤ closest
  · have h2 : ¬ (current - 0.003 > closest) := not_lt.mpr h
    simp only [L, current, closest] at h h2 ⊢
    simp [h, h2]
  · have h2 : current - 0.003 > closest := not_le.mp h
    simp only [L, current, closest] at h h2 ⊢
    simp [h, h2]

/-! ### C2 -/

/-- C2: in the shadow pass for `n` lights, the layer attached for light `li`
and face `face` is `6 * li + face`; the layers attached are `0, 1, ..., 6n - 1`
in increasing order, and the depth writes are, layer by layer in that order,
one clear followed by four draws; hence every layer of the `6n`-layer texture
is attached once, no layer is outside `[0, 6n)`, light `li` owns the layers
`6 li, ..., 6 li + 5`, and distinct (light, face) pairs have distinct layers. -/
theorem shadowPass_layer_order {n : Nat} (lightPos : Fin n → Vec3 K) (farPlane : Fin n → K) :
    (∀ (li : Fin n) (face : Nat),
      attachedLayers (shadowFace (lightPos li) li.val face) = [6 * li.val + face]) ∧
    attachedLayers (shadowPass lightPos farPlane) = List.range (layerCount n) ∧
    (∀ (I : Type) (R : Raster K I) (s : GLState K I),
      s.writes R (shadowPass lightPos farPlane) =
        (List.range (layerCount n)).flatMap
          (fun l => [LayerWrite.clear l, .draw l, .draw l, .draw l, .draw l])) ∧
    (attachedLayers (shadowPass lightPos farPlane)).Nodup ∧
    (∀ l, l ∈ attachedLayers (shadowPass lightPos farPlane) ↔ l < layerCount n) ∧
    (∀ li : Fin n, attachedLayers (shadowLight lightPos farPlane li) =
      [6 * li.val, 6 * li.val + 1, 6 * li.val + 2, 6 * li.val + 3, 6 * li.val + 4,
        6 * li.val + 5]) ∧
    (∀ li face li2 face2 : Nat, face < 6 → face2 < 6 →
      li * 6 + face = li2 * 6 + face2 → li = li2 ∧ face = face2) ∧
    (∀ li face : Nat, li < n → face < 6 → li * 6 + face < layerCount n) := by
  have h := attachedLayers_shadowPass lightPos farPlane
  refine ⟨fun li face => ?_, h, fun I R s => ?_, ?_, fun l => ?_, fun li => ?_, ?_, ?_⟩
  · rw [attachedLayers_shadowFace, Nat.mul_comm]
  · rw [writes_shadowPass]; rfl
  · rw [h]; exact List.nodup_range _
  · rw [h]; exact List.mem_range
  · rw [attachedLayers_shadowLight, range_six]
    simp [Nat.mul_comm]
  · intro li face li2 face2 h1 h2 h3
    omega
  · intro li face h1 h2
    unfold layerCount
    omega

/-- The layers of the three-light program: layer `1 * 6 + 2` is in range and the attached layers are `0..17`. -/
theorem shadowPass_layer_order_witness :
    1 * 6 + 2 < layerCount 3 ∧
      attachedLayers (shadowPass (lightPosInit : Fin 3 → Vec3 ℚ) farPlane) =
        List.range (layerCount 3) :=
  ⟨(shadowPass_layer_order (lightPosInit : Fin 3 → Vec3 ℚ)
      farPlane).2.2.2.2.2.2.2 1 2 (by decide) (by decide),
    (shadowPass_layer_order (lightPosInit : Fin 3 → Vec3 ℚ) farPlane).2.1⟩

/-! ### C3 -/

/-- C3: when the active light count is within the array capacity, `litFS`
writes the colour `albedo * Σ_{i < uNumLights} lightColor_i *
(0.06 + max(N·L_i, 0) * factor_i)` componentwise, with alpha 1, where `N` is
the shading normal, `L_i` the normalized direction to light `i` and `factor_i`
the value of `shadowFactor`; with non-negative albedo and light colours no
component is negative, and the albedos and light colours of the program are
non-negative. -/
theorem litFS_colour (B : Builtins K) (U : LitUniforms K) (WorldPos Normal : Vec3 K)
    (hn : U.uNumLights.toNat ≤ 16) :
    (∃ (factor : Fin 16 → K) (c : Vec4 K),
      litFS B U WorldPos Normal = some c ∧
      (∀ i : Fin 16, shadowFactor B U WorldPos i.val = some (factor i)) ∧
      c.w = 1 ∧
      c.x = U.uAlbedo.x * ∑ i : Fin U.uNumLights.toNat, (U.uLightColor (i.castLE hn)).x *
        (0.06 + max (Vec3.dot (shadingNormal B U.uInvertNormals Normal)
          (normalize B (U.uLightPos (i.castLE hn) - WorldPos))) 0 * factor (i.castLE hn)) ∧
      c.y = U.uAlbedo.y * ∑ i : Fin U.uNumLights.toNat, (U.uLightColor (i.castLE hn)).y *
        (0.06 + max (Vec3.dot (shadingNormal B U.uInvertNormals Normal)
          (normalize B (U.uLightPos (i.castLE hn) - WorldPos))) 0 * factor (i.castLE hn)) ∧
      c.z = U.uAlbedo.z * ∑ i : Fin U.uNumLights.toNat, (U.uLightColor (i.castLE hn)).z *
        (0.06 + max (Vec3.dot (shadingNormal B U.uInvertNormals Normal)
          (normalize B (U.uLightPos (i.castLE hn) - WorldPos))) 0 * factor (i.castLE hn)) ∧
      ((0 ≤ U.uAlbedo.x ∧ 0 ≤ U.uAlbedo.y ∧ 0 ≤ U.uAlbedo.z) →
        (∀ i : Fin U.uNumLights.toNat, 0 ≤ (U.uLightColor (i.castLE hn)).x ∧
          0 ≤ (U.uLightColor (i.castLE hn)).y ∧ 0 ≤ (U.uLightColor (i.castLE hn)).z) →
        0 ≤ c.x ∧ 0 ≤ c.y ∧ 0 ≤ c.z)) ∧
    (∀ i : Fin NUM_LIGHTS, 0 ≤ (lightColor i : Vec3 K).x ∧ 0 ≤ (lightColor i : Vec3 K).y ∧
      0 ≤ (lightColor i : Vec3 K).z) ∧
    (∀ (s : LitDraw K), ∀ d ∈ litDraws s litObjects,
      0 ≤ d.uAlbedo.x ∧ 0 ≤ d.uAlbedo.y ∧ 0 ≤ d.uAlbedo.z) := by
  refine ⟨⟨fun i => (shadowFactor B U WorldPos i.val).getD 0, _,
    litFS_eq B U WorldPos Normal hn, fun i => (shadowFactor_getD B U WorldPos i).1, rfl,
    rfl, rfl, rfl, ?_⟩, ?_, ?_⟩
  · rintro ⟨ax, ay, az⟩ hc
    refine ⟨mul_nonneg ax (Finset.sum_nonneg fun i _ => ?_),
      mul_nonneg ay (Finset.sum_nonneg fun i _ => ?_),
      mul_nonneg az (Finset.sum_nonneg fun i _ => ?_)⟩
    · exact mul_nonneg (hc i).1 (lightWeight_nonneg B U WorldPos _ _)
    · exact mul_nonneg (hc i).2.1 (lightWeight_nonneg B U WorldPos _ _)
    · exact mul_nonneg (hc i).2.2 (lightWeight_nonneg B U WorldPos _ _)
  · intro i
    fin_cases i <;> simp [lightColor] <;> norm_num
  · intro s d hd
    rw [litDraws_litObjects] at hd
    simp only [List.mem_cons, List.mem_singleton, List.not_mem_nil, or_false] at hd
    rcases hd with rfl | rfl | rfl | rfl <;> norm_num

/-- The colour of a fragment of a cube under the sample uniforms is defined, opaque and non-negative. -/
theorem litFS_colour_witness :
    (demoUniforms : LitUniforms ℝ).uNumLights.toNat ≤ 16 ∧
      ∃ c, litFS (Builtins.mk Real.sqrt Real.sin Real.cos) demoUniforms
          ⟨0, 0, 0⟩ ⟨0, 1, 0⟩ = some c ∧
        c.w = 1 ∧ 0 ≤ c.x ∧ 0 ≤ c.y ∧ 0 ≤ c.z := by
  have hn : (demoUniforms : LitUniforms ℝ).uNumLights.toNat ≤ 16 := by
    simp [demoUniforms, uploadLights]
  obtain ⟨⟨factor, c, hc, -, hw, -, -, -, hpos⟩, hcol, -⟩ :=
    litFS_colour (Builtins.mk Real.sqrt Real.sin Real.cos) (demoUniforms : LitUniforms ℝ)
      ⟨0, 0, 0⟩ ⟨0, 1, 0⟩ hn
  refine ⟨hn, c, hc, hw, hpos ?_ ?_⟩
  · simp only [demoUniforms, uploadLights]
    norm_num
  · intro i
    have hi : i.val < NUM_LIGHTS := i.isLt
    have e : (demoUniforms : LitUniforms ℝ).uLightColor (i.castLE hn) =
        lightColor ⟨i.val, hi⟩ := by
      simp [demoUniforms, uploadLights, uploadArray, hi]
    rw [e]
    exact hcol ⟨i.val, hi⟩

/-! ### C4 -/

/-- C4: if the sampled depth is the depth pass's own output for the fragment,
`length(p - l) / far`, then `shadowFactor` returns 1; more generally it returns
1 whenever the sampled depth is at least `current - 0.003`.  The light
position and far plane uploaded for slot `i` of the lighting pass are those
the shadow pass uploads for light `i`. -/
theorem unoccluded_fragment_lit (B : Builtins K) (U : LitUniforms K) (p : Vec3 K)
    (li : Fin 16) :
    (U.uDepthCubeArray (normalize B (p - U.uLightPos li)) li.val =
        depthFS B p (U.uLightPos li) (U.uFarPlane li) →
      shadowFactor B U p li.val = some 1) ∧
    (length B (p - U.uLightPos li) / U.uFarPlane li - 0.003 ≤
        U.uDepthCubeArray (normalize B (p - U.uLightPos li)) li.val →
      shadowFactor B U p li.val = some 1) ∧
    (∀ (lightPos : Fin NUM_LIGHTS → Vec3 K) (U0 : LitUniforms K) (i : Fin NUM_LIGHTS)
        (h : i.val < 16),
      (uploadLights lightPos U0).uLightPos ⟨i.val, h⟩ = lightPos i ∧
      (uploadLights lightPos U0).uFarPlane ⟨i.val, h⟩ = farPlane i ∧
      (shadowLight lightPos farPlane i).take 2 =
        [.uniformLightPos (lightPos i), .uniformFarPlane (farPlane i)]) := by
  have gen : length B (p - U.uLightPos li) / U.uFarPlane li - 0.003 ≤
        U.uDepthCubeArray (normalize B (p - U.uLightPos li)) li.val →
      shadowFactor B U p li.val = some 1 := by
    intro h
    rw [shadowFactor_eq, if_neg (not_lt.mpr h)]
  refine ⟨fun h => gen ?_, gen, fun lightPos U0 i h =>
    ⟨uploadArray_slot _ _ _ i h, uploadArray_slot _ _ _ i h, rfl⟩⟩
  rw [h]
  unfold depthFS
  have : (0 : K) ≤ 0.003 := by norm_num
  simp only
  linarith

/-- A fragment at distance 1 whose stored depth is its own depth `1 / 18` is lit. -/
theorem unoccluded_fragment_lit_witness :
    (nearOccluderUniforms : LitUniforms ℝ).uDepthCubeArray
        (normalize (Builtins.mk Real.sqrt Real.sin Real.cos)
          (⟨1, 0, 0⟩ - nearOccluderUniforms.uLightPos 0)) 0 =
      depthFS (Builtins.mk Real.sqrt Real.sin Real.cos) ⟨1, 0, 0⟩
        (nearOccluderUniforms.uLightPos 0) (nearOccluderUniforms.uFarPlane 0) ∧
    shadowFactor (Builtins.mk Real.sqrt Real.sin Real.cos)
      (nearOccluderUniforms : LitUniforms ℝ) ⟨1, 0, 0⟩ 0 = some 1 := by
  have h : (nearOccluderUniforms : LitUniforms ℝ).uDepthCubeArray
        (normalize (Builtins.mk Real.sqrt Real.sin Real.cos)
          (⟨1, 0, 0⟩ - nearOccluderUniforms.uLightPos 0)) 0 =
      depthFS (Builtins.mk Real.sqrt Real.sin Real.cos) ⟨1, 0, 0⟩
        (nearOccluderUniforms.uLightPos 0) (nearOccluderUniforms.uFarPlane 0) := by
    show (1 / 18 : ℝ) = depthFS (Builtins.mk Real.sqrt Real.sin Real.cos) ⟨1, 0, 0⟩ ⟨0, 0, 0⟩ 18
    simp only [depthFS, real_sqrt_axis 1 (by norm_num)]
  exact ⟨h, (unoccluded_fragment_lit (Builtins.mk Real.sqrt Real.sin Real.cos)
    (nearOccluderUniforms : LitUniforms ℝ) ⟨1, 0, 0⟩ 0).1 h⟩

/-! ### C5 -/

/-- C5 (counterexample): with the light at the origin and far plane 18, a
fragment at distance 1.01 lies on the ray through an occluder point at
distance 1 and is strictly farther from the light; the stored depth is the
occluder's `1 / 18`; yet `shadowFactor` returns 1, and
`currentDist > closestDist + 0.003` fails. -/
theorem occluder_within_bias_lit :
    (⟨1, 0, 0⟩ : Vec3 ℝ) =
        (⟨0, 0, 0⟩ : Vec3 ℝ) + ((⟨1.01, 0, 0⟩ : Vec3 ℝ) - ⟨0, 0, 0⟩).scale (100 / 101) ∧
    depthFS (Builtins.mk Real.sqrt Real.sin Real.cos) ⟨1, 0, 0⟩ ⟨0, 0, 0⟩ 18 <
      depthFS (Builtins.mk Real.sqrt Real.sin Real.cos) ⟨1.01, 0, 0⟩ ⟨0, 0, 0⟩ 18 ∧
    (nearOccluderUniforms : LitUniforms ℝ).uDepthCubeArray
        (normalize (Builtins.mk Real.sqrt Real.sin Real.cos) (⟨1.01, 0, 0⟩ - ⟨0, 0, 0⟩)) 0 =
      depthFS (Builtins.mk Real.sqrt Real.sin Real.cos) ⟨1, 0, 0⟩ ⟨0, 0, 0⟩ 18 ∧
    shadowFactor (Builtins.mk Real.sqrt Real.sin Real.cos) nearOccluderUniforms
      ⟨1.01, 0, 0⟩ 0 = some 1 ∧
    ¬ (depthFS (Builtins.mk Real.sqrt Real.sin Real.cos) ⟨1.01, 0, 0⟩ ⟨0, 0, 0⟩ 18 >
      depthFS (Builtins.mk Real.sqrt Real.sin Real.cos) ⟨1, 0, 0⟩ ⟨0, 0, 0⟩ 18 + 0.003) := by
  have h1 := real_sqrt_axis 1 (by norm_num)
  have h2 := real_sqrt_axis 1.01 (by norm_num)
  have d1 : depthFS (Builtins.mk Real.sqrt Real.sin Real.cos) ⟨1, 0, 0⟩ ⟨0, 0, 0⟩ 18 = 1 / 18 := by
    simp only [depthFS, h1]
  have d2 : depthFS (Builtins.mk Real.sqrt Real.sin Real.cos) ⟨1.01, 0, 0⟩ ⟨0, 0, 0⟩ 18 =
      1.01 / 18 := by
    simp only [depthFS, h2]
  refine ⟨?_, ?_, ?_, ?_, ?_⟩
  · ext <;> norm_num [Vec3.scale]
  · rw [d1, d2]; norm_num
  · rw [d1]; rfl
  · have e := shadowFactor_eq (Builtins.mk Real.sqrt Real.sin Real.cos)
      (nearOccluderUniforms : LitUniforms ℝ) ⟨1.01, 0, 0⟩ 0
    simp only [Fin.val_zero] at e
    rw [e]
    have e2 : (nearOccluderUniforms : LitUniforms ℝ).uLightPos 0 = ⟨0, 0, 0⟩ := rfl
    have e3 : (nearOccluderUniforms : LitUniforms ℝ).uFarPlane 0 = 18 := rfl
    have e4 : ∀ v, (nearOccluderUniforms : LitUniforms ℝ).uDepthCubeArray v 0 = 1 / 18 :=
      fun _ => rfl
    rw [e2, e3]
    simp only [e4, h2]
    norm_num
  · rw [d1, d2]; norm_num

/-- C5 (amended): if the sampled depth is the depth pass's output for an
occluder point whose distance to the light is smaller than the fragment's by
more than `0.003 * far`, then `currentDist > closestDist + 0.003` and
`shadowFactor` returns 0. -/
theorem occluded_beyond_bias_shadowed (B : Builtins K) (U : LitUniforms K) (p q : Vec3 K)
    (li : Fin 16) (hfar : 0 < U.uFarPlane li)
    (hstored : U.uDepthCubeArray (normalize B (p - U.uLightPos li)) li.val =
      depthFS B q (U.uLightPos li) (U.uFarPlane li))
    (hgap : length B (q - U.uLightPos li) + 0.003 * U.uFarPlane li <
      length B (p - U.uLightPos li)) :
    depthFS B p (U.uLightPos li) (U.uFarPlane li) >
        depthFS B q (U.uLightPos li) (U.uFarPlane li) + 0.003 ∧
      shadowFactor B U p li.val = some 0 := by
  have h1 : depthFS B p (U.uLightPos li) (U.uFarPlane li) >
      depthFS B q (U.uLightPos li) (U.uFarPlane li) + 0.003 := by
    unfold depthFS
    simp only
    rw [gt_iff_lt, ← sub_pos]
    have e : length B (p - U.uLightPos li) / U.uFarPlane li -
        (length B (q - U.uLightPos li) / U.uFarPlane li + 0.003) =
        (length B (p - U.uLightPos li) - (length B (q - U.uLightPos li) +
          0.003 * U.uFarPlane li)) / U.uFarPlane li := by
      field_simp
    rw [e]
    exact div_pos (by linarith) hfar
  refine ⟨h1, ?_⟩
  rw [shadowFactor_eq, hstored, if_pos]
  unfold depthFS at h1 ⊢
  simp only at h1 ⊢
  linarith

/-- A fragment at distance 2 behind an occluder at distance 1 is shadowed. -/
theorem occluded_beyond_bias_shadowed_witness :
    length (Builtins.mk Real.sqrt Real.sin Real.cos) ((⟨1, 0, 0⟩ : Vec3 ℝ) - ⟨0, 0, 0⟩) +
        0.003 * 18 <
      length (Builtins.mk Real.sqrt Real.sin Real.cos) ((⟨2, 0, 0⟩ : Vec3 ℝ) - ⟨0, 0, 0⟩) ∧
    shadowFactor (Builtins.mk Real.sqrt Real.sin Real.cos)
      (nearOccluderUniforms : LitUniforms ℝ) ⟨2, 0, 0⟩ 0 = some 0 := by
  have hgap : length (Builtins.mk Real.sqrt Real.sin Real.cos)
        ((⟨1, 0, 0⟩ : Vec3 ℝ) - ⟨0, 0, 0⟩) + 0.003 * 18 <
      length (Builtins.mk Real.sqrt Real.sin Real.cos) ((⟨2, 0, 0⟩ : Vec3 ℝ) - ⟨0, 0, 0⟩) := by
    rw [real_sqrt_axis 1 (by norm_num), real_sqrt_axis 2 (by norm_num)]
    norm_num
  have hstored : (nearOccluderUniforms : LitUniforms ℝ).uDepthCubeArray
        (normalize (Builtins.mk Real.sqrt Real.sin Real.cos)
          (⟨2, 0, 0⟩ - nearOccluderUniforms.uLightPos 0)) 0 =
      depthFS (Builtins.mk Real.sqrt Real.sin Real.cos) ⟨1, 0, 0⟩
        (nearOccluderUniforms.uLightPos 0) (nearOccluderUniforms.uFarPlane 0) := by
    show (1 / 18 : ℝ) = depthFS (Builtins.mk Real.sqrt Real.sin Real.cos) ⟨1, 0, 0⟩ ⟨0, 0, 0⟩ 18
    simp only [depthFS, real_sqrt_axis 1 (by norm_num)]
  exact ⟨hgap, (occluded_beyond_bias_shadowed (Builtins.mk Real.sqrt Real.sin Real.cos)
    (nearOccluderUniforms : LitUniforms ℝ) ⟨2, 0, 0⟩ ⟨1, 0, 0⟩ 0
    (show (0 : ℝ) < 18 by norm_num) hstored hgap).2⟩

/-! ### C6 -/

/-- C6: for an active count `n ≤ 16`, two uniform states that agree on the
albedo, the flag, the sampler and on the slots below `n` of the three light
arrays give the same fragment colour, whatever the slots `n..15` hold, and
that colour is defined; the program uploads the count `NUM_LIGHTS = 3`. -/
theorem litFS_ignores_unused_slots (B : Builtins K) (U V : LitUniforms K)
    (WorldPos Normal : Vec3 K) (n : Nat) (hn : n ≤ 16)
    (hU : U.uNumLights = n) (hV : V.uNumLights = n)
    (ha : U.uAlbedo = V.uAlbedo) (hi : U.uInvertNormals = V.uInvertNormals)
    (hs : U.uDepthCubeArray = V.uDepthCubeArray)
    (hagree : ∀ i : Fin 16, i.val < n → U.uLightPos i = V.uLightPos i ∧
      U.uLightColor i = V.uLightColor i ∧ U.uFarPlane i = V.uFarPlane i) :
    litFS B U WorldPos Normal = litFS B V WorldPos Normal ∧
    (∃ c, litFS B U WorldPos Normal = some c) ∧
    (∀ (lightPos : Fin NUM_LIGHTS → Vec3 K) (U0 : LitUniforms K),
      (uploadLights lightPos U0).uNumLights = 3) := by
  have hUn : U.uNumLights.toNat = n := by rw [hU]; rfl
  have hVn : V.uNumLights.toNat = n := by rw [hV]; rfl
  refine ⟨?_, ⟨_, litFS_eq B U WorldPos Normal (by rw [hUn]; exact hn)⟩, fun _ _ => rfl⟩
  unfold litFS lightLoop
  rw [hUn, hVn, ha, hi]
  have e : (List.range n).foldlM (lightStep B U WorldPos (shadingNormal B V.uInvertNormals Normal)) 0 =
      (List.range n).foldlM (lightStep B V WorldPos (shadingNormal B V.uInvertNormals Normal)) 0 := by
    apply foldlM_congr_mem
    intro i hi2 color
    have hlt : i < n := List.mem_range.mp hi2
    obtain ⟨h1, h2, h3⟩ := hagree ⟨i, lt_of_lt_of_le hlt hn⟩ hlt
    exact lightStep_congr B U V WorldPos _ color ⟨i, lt_of_lt_of_le hlt hn⟩ hs h1 h2 h3
  simp only [e]

/-- Filling the unused slot 5 of the sample uniforms does not change the colour. -/
theorem litFS_ignores_unused_slots_witness :
    (demoUniforms : LitUniforms ℝ).uLightColor 5 ≠ demoUniformsAlt.uLightColor 5 ∧
    litFS (Builtins.mk Real.sqrt Real.sin Real.cos) (demoUniforms : LitUniforms ℝ)
        ⟨0, 0, 0⟩ ⟨0, 1, 0⟩ =
      litFS (Builtins.mk Real.sqrt Real.sin Real.cos) demoUniformsAlt
        ⟨0, 0, 0⟩ ⟨0, 1, 0⟩ := by
  refine ⟨?_, (litFS_ignores_unused_slots (Builtins.mk Real.sqrt Real.sin Real.cos)
    (demoUniforms : LitUniforms ℝ) demoUniformsAlt ⟨0, 0, 0⟩ ⟨0, 1, 0⟩ 3 (by decide)
    rfl rfl rfl rfl rfl ?_).1⟩
  · have e1 : (demoUniforms : LitUniforms ℝ).uLightColor 5 = ⟨0, 0, 0⟩ := rfl
    have e2 : (demoUniformsAlt : LitUniforms ℝ).uLightColor 5 = ⟨7, 7, 7⟩ := by
      simp [demoUniformsAlt]
    rw [e1, e2]
    intro h
    have := congrArg Vec3.x h
    norm_num at this
  · intro i hi
    have h5 : i ≠ 5 := by
      intro h
      rw [h] at hi
      exact absurd hi (by decide)
    simp [demoUniformsAlt, Function.update, h5]

/-! ### C7 -/

/-- C7: for a non-zero interpolated normal `n`, the diffuse term is
`max(dot(-normalize(n), L), 0)` with `uInvertNormals = 1` and
`max(dot(normalize(n), L), 0)` with `uInvertNormals = 0`; the two are never
both positive, and the flagged one is positive exactly when `dot(n, L) < 0`.
The lighting pass draws the room with the flag 1 and the three cubes with 0. -/
theorem normal_flip_before_dot (B : Builtins K) (hB : B.Exact) (n L : Vec3 K) (hn : n ≠ 0) :
    ndotl (shadingNormal B 1 n) L = max (Vec3.dot (-(normalize B n)) L) 0 ∧
    ndotl (shadingNormal B 0 n) L = max (Vec3.dot (normalize B n) L) 0 ∧
    ¬ (0 < ndotl (shadingNormal B 1 n) L ∧ 0 < ndotl (shadingNormal B 0 n) L) ∧
    (0 < ndotl (shadingNormal B 1 n) L ↔ Vec3.dot n L < 0) ∧
    (∀ s : LitDraw K, (litDraws s litObjects).map (fun d => (d.uModel, d.uInvertNormals)) =
      [(modelRoom, 1), (m1, 0), (m2, 0), (m3, 0)]) := by
  have hlen : 0 < length B n := hB.sqrt_pos (dot_self_pos n hn)
  have e1 : ndotl (shadingNormal B 1 n) L = max (Vec3.dot (-(normalize B n)) L) 0 := by
    simp [ndotl, shadingNormal]
  have e0 : ndotl (shadingNormal B 0 n) L = max (Vec3.dot (normalize B n) L) 0 := by
    simp [ndotl, shadingNormal]
  have p1 : 0 < ndotl (shadingNormal B 1 n) L ↔ Vec3.dot n L < 0 := by
    rw [e1, lt_max_iff, dot_neg_left, dot_normalize]
    simp only [lt_self_iff_false, or_false, Left.neg_pos_iff]
    rw [div_neg_iff]
    constructor
    · rintro (⟨-, h⟩ | ⟨h, -⟩)
      · exact absurd hlen (not_lt.mpr h.le)
      · exact h
    · exact fun h => Or.inr ⟨h, hlen⟩
  have p0 : 0 < ndotl (shadingNormal B 0 n) L ↔ 0 < Vec3.dot n L := by
    rw [e0, lt_max_iff, dot_normalize]
    simp only [lt_self_iff_false, or_false]
    exact div_pos_iff_of_pos_right hlen
  refine ⟨e1, e0, ?_, p1, fun s => ?_⟩
  · rintro ⟨h1, h0⟩
    exact lt_asymm (p1.mp h1) (p0.mp h0)
  · rw [litDraws_litObjects]
    rfl

/-- A wall whose outward normal `(0, 1, 0)` faces away from the light is lit once flagged. -/
theorem normal_flip_before_dot_witness :
    (⟨0, 1, 0⟩ : Vec3 ℝ) ≠ 0 ∧
      0 < ndotl (shadingNormal (Builtins.mk Real.sqrt Real.sin Real.cos) 1 ⟨0, 1, 0⟩)
        (⟨0, -1, 0⟩ : Vec3 ℝ) := by
  have hne : (⟨0, 1, 0⟩ : Vec3 ℝ) ≠ 0 := by
    intro h
    have := congrArg Vec3.y h
    simp at this
  exact ⟨hne, ((normal_flip_before_dot (Builtins.mk Real.sqrt Real.sin Real.cos) real_exact
    ⟨0, 1, 0⟩ ⟨0, -1, 0⟩ hne).2.2.2.1).mpr (by norm_num [Vec3.dot])⟩

/-! ### C8 -/

/-- C8: for faces 0..5 `faceView` looks from the light position along
`+X, -X, +Y, -Y, +Z, -Z`, with up-vector `(0,0,1)` for `+Y`, `(0,0,-1)` for
`-Y` and `(0,-1,0)` otherwise; for every face index the up-vector is
orthogonal to the look direction and their cross product is non-zero; every
face index outside `0..4` gives the `-Z` view. -/
theorem faceView_dir_up (lp : Vec3 K) :
    ((faceView lp 0).dir = ⟨1, 0, 0⟩ ∧ (faceView lp 0).up = ⟨0, -1, 0⟩) ∧
    ((faceView lp 1).dir = ⟨-1, 0, 0⟩ ∧ (faceView lp 1).up = ⟨0, -1, 0⟩) ∧
    ((faceView lp 2).dir = ⟨0, 1, 0⟩ ∧ (faceView lp 2).up = ⟨0, 0, 1⟩) ∧
    ((faceView lp 3).dir = ⟨0, -1, 0⟩ ∧ (faceView lp 3).up = ⟨0, 0, -1⟩) ∧
    ((faceView lp 4).dir = ⟨0, 0, 1⟩ ∧ (faceView lp 4).up = ⟨0, -1, 0⟩) ∧
    ((faceView lp 5).dir = ⟨0, 0, -1⟩ ∧ (faceView lp 5).up = ⟨0, -1, 0⟩) ∧
    (∀ face : Int, (faceView lp face).eye = lp ∧
      Vec3.dot (faceView lp face).up (faceView lp face).dir = 0 ∧
      Vec3.cross (faceView lp face).dir (faceView lp face).up ≠ 0) ∧
    (∀ face : Int, (face < 0 ∨ 4 < face) →
      faceView lp face = ⟨lp, lp + ⟨0, 0, -1⟩, ⟨0, -1, 0⟩⟩) := by
  have hsub : ∀ d : Vec3 K, lp + d - lp = d := by
    intro d
    ext <;> simp
  have d0 : (faceView lp 0).dir = ⟨1, 0, 0⟩ := by simp [faceView, LookAt.dir, hsub]
  have d1 : (faceView lp 1).dir = ⟨-1, 0, 0⟩ := by simp [faceView, LookAt.dir, hsub]
  have d2 : (faceView lp 2).dir = ⟨0, 1, 0⟩ := by simp [faceView, LookAt.dir, hsub]
  have d3 : (faceView lp 3).dir = ⟨0, -1, 0⟩ := by simp [faceView, LookAt.dir, hsub]
  have d4 : (faceView lp 4).dir = ⟨0, 0, 1⟩ := by simp [faceView, LookAt.dir, hsub]
  have d5 : (faceView lp 5).dir = ⟨0, 0, -1⟩ := by simp [faceView, LookAt.dir, hsub]
  have u0 : (faceView lp 0).up = ⟨0, -1, 0⟩ := by simp [faceView]
  have u1 : (faceView lp 1).up = ⟨0, -1, 0⟩ := by simp [faceView]
  have u2 : (faceView lp 2).up = ⟨0, 0, 1⟩ := by simp [faceView]
  have u3 : (faceView lp 3).up = ⟨0, 0, -1⟩ := by simp [faceView]
  have u4 : (faceView lp 4).up = ⟨0, -1, 0⟩ := by simp [faceView]
  have u5 : (faceView lp 5).up = ⟨0, -1, 0⟩ := by simp [faceView]
  refine ⟨⟨d0, u0⟩, ⟨d1, u1⟩, ⟨d2, u2⟩, ⟨d3, u3⟩, ⟨d4, u4⟩, ⟨d5, u5⟩, fun face => ?_,
    fun face hf => ?_⟩
  · have hne : ∀ v : Vec3 K, (v.x ≠ 0 ∨ v.y ≠ 0 ∨ v.z ≠ 0) → v ≠ 0 := by
      intro v hv h
      rw [h] at hv
      simp at hv
    rcases faceView_cases lp face with h | h | h | h | h | h <;> rw [h]
    · rw [d0, u0]; exact ⟨by simp [faceView], by simp [Vec3.dot], hne _ (by simp [Vec3.cross])⟩
    · rw [d1, u1]; exact ⟨by simp [faceView], by simp [Vec3.dot], hne _ (by simp [Vec3.cross])⟩
    · rw [d2, u2]; exact ⟨by simp [faceView], by simp [Vec3.dot], hne _ (by simp [Vec3.cross])⟩
    · rw [d3, u3]; exact ⟨by simp [faceView], by simp [Vec3.dot], hne _ (by simp [Vec3.cross])⟩
    · rw [d4, u4]; exact ⟨by simp [faceView], by simp [Vec3.dot], hne _ (by simp [Vec3.cross])⟩
    · rw [d5, u5]; exact ⟨by simp [faceView], by simp [Vec3.dot], hne _ (by simp [Vec3.cross])⟩
  · have h0 : face ≠ 0 := by omega
    have h1 : face ≠ 1 := by omega
    have h2 : face ≠ 2 := by omega
    have h3 : face ≠ 3 := by omega
    have h4 : face ≠ 4 := by omega
    simp [faceView, h0, h1, h2, h3, h4]

/-- Face index 7 gives the `-Z` view. -/
theorem faceView_dir_up_witness :
    faceView (⟨1, 2, 3⟩ : Vec3 ℚ) 7 = ⟨⟨1, 2, 3⟩, ⟨1, 2, 3⟩ + ⟨0, 0, -1⟩, ⟨0, -1, 0⟩⟩ :=
  (faceView_dir_up (⟨1, 2, 3⟩ : Vec3 ℚ)).2.2.2.2.2.2.2 7 (Or.inr (by decide))

/-! ### C9 -/

/-- C9: the layers of the shadow map after one shadow pass are a function of
the light positions and far planes alone: from any two prior states the
resulting layers below `6n` coincide (each is the image of a clear followed by
the four draws), and running the pass a second time with the same lights
leaves every layer as the first run left it. -/
theorem shadowPass_stateless {n : Nat} (R : Raster K Img) (lightPos : Fin n → Vec3 K)
    (farPlane : Fin n → K) :
    (∀ (s1 s2 : GLState K Img) (l : Nat), l < layerCount n →
      (s1.run R (shadowPass lightPos farPlane)).layers l =
        (s2.run R (shadowPass lightPos farPlane)).layers l) ∧
    (∀ (s : GLState K Img) (l : Nat), l < layerCount n →
      (s.run R (shadowPass lightPos farPlane)).layers l = shadowImage R lightPos farPlane l) ∧
    (∀ s : GLState K Img,
      ((s.run R (shadowPass lightPos farPlane)).run R (shadowPass lightPos farPlane)).layers =
        (s.run R (shadowPass lightPos farPlane)).layers) := by
  refine ⟨fun s1 s2 l hl => ?_, fun s l hl => ?_, fun s => ?_⟩
  all_goals try unfold layerCount at hl
  · rw [run_shadowPass_layers, run_shadowPass_layers, if_pos hl, if_pos hl]
  · rw [run_shadowPass_layers, if_pos hl]
  · funext l
    rw [run_shadowPass_layers R (s.run R (shadowPass lightPos farPlane))]
    by_cases hl : l < 6 * n
    · rw [if_pos hl, run_shadowPass_layers, if_pos hl]
    · rw [if_neg hl]

/-- Layer 7 after a pass does not depend on what the layers held before. -/
theorem shadowPass_stateless_witness :
    7 < layerCount 3 ∧
      ((sampleState 5).run countingRaster
          (shadowPass (lightPosInit : Fin 3 → Vec3 ℚ) farPlane)).layers 7 =
        ((sampleState 9).run countingRaster
          (shadowPass (lightPosInit : Fin 3 → Vec3 ℚ) farPlane)).layers 7 :=
  ⟨by decide, (shadowPass_stateless countingRaster (lightPosInit : Fin 3 → Vec3 ℚ)
    farPlane).1 (sampleState 5) (sampleState 9) 7 (by decide)⟩

/-! ### C10 -/

/-- C10: for every time `t`, each animated light lies strictly inside the box
`(-5, 5)³`, and for every point `p` of the room `[-5, 5]³` (the unit cube
under `modelRoom`), the depth `length(p - lightPos_i) / farPlane_i` written by
`depthFS` lies in `[0, 1)`, with `farPlane_i = 18`; the three cubes lie in the
room as well.  The height of light 0, initially 2.8, is never changed by the
animation. -/
theorem room_depth_below_one (B : Builtins K) (hB : B.Exact) (t : K)
    (prev : Fin NUM_LIGHTS → Vec3 K) (hprev : (prev 0).y = 2.8) (i : Fin NUM_LIGHTS) :
    strictlyInRoom (animateLights B t prev i) ∧
    (∀ p, inRoom p → 0 ≤ depthFS B p (animateLights B t prev i) (farPlane i) ∧
      depthFS B p (animateLights B t prev i) (farPlane i) < 1) ∧
    (∀ p, inRoom p ↔ ∃ q, inUnitCube q ∧ (modelRoom : Model K).apply q = p) ∧
    (∀ q, inUnitCube q → inRoom ((m1 : Model K).apply q) ∧ inRoom ((m2 : Model K).apply q) ∧
      inRoom ((m3 : Model K).apply q)) ∧
    (farPlane i : K) = 18 ∧
    (lightPosInit 0 : Vec3 K).y = 2.8 ∧
    (animateLights B t prev 0).y = (prev 0).y := by
  have hin := animateLights_strictlyInRoom B hB t prev hprev i
  refine ⟨hin, fun p hp => ?_, fun p => ⟨fun hp => ?_, ?_⟩, cube_apply_inRoom,
    farPlane_eq i, rfl, rfl⟩
  · rw [farPlane_eq]
    exact depthFS_room B hB p _ hp hin
  · obtain ⟨⟨a1, a2⟩, ⟨a3, a4⟩, a5, a6⟩ := hp
    refine ⟨⟨p.x / 10, p.y / 10, p.z / 10⟩, ?_, ?_⟩
    · simp only [inUnitCube]
      norm_num
      refine ⟨⟨?_, ?_⟩, ⟨?_, ?_⟩, ⟨?_, ?_⟩⟩ <;> linarith
    · ext <;> simp [Model.apply, modelRoom, Vec3.scale]
  · rintro ⟨q, hq, rfl⟩
    exact modelRoom_apply_inRoom q hq

/-- At `t = 1` light 1 is strictly inside the room and the room corner `(5, 5, 5)` has depth below 1. -/
theorem room_depth_below_one_witness :
    (lightPosInit 0 : Vec3 ℝ).y = 2.8 ∧
      strictlyInRoom (animateLights (Builtins.mk Real.sqrt Real.sin Real.cos) 1
        lightPosInit 1) ∧
      depthFS (Builtins.mk Real.sqrt Real.sin Real.cos) ⟨5, 5, 5⟩
        (animateLights (Builtins.mk Real.sqrt Real.sin Real.cos) 1 lightPosInit 1)
        (farPlane 1) < 1 :=
  ⟨rfl, (room_depth_below_one (Builtins.mk Real.sqrt Real.sin Real.cos) real_exact 1
      lightPosInit rfl 1).1,
    ((room_depth_below_one (Builtins.mk Real.sqrt Real.sin Real.cos) real_exact 1
      lightPosInit rfl 1).2.1 ⟨5, 5, 5⟩ (by norm_num [inRoom])).2⟩

end Proofs

end PointlightShadows
